import Mathlib

/-!  Verification of the ICRQE incremental artifact-indexing and retrieval
pipeline against its natural-language specification.  The definitions below
are a shallow embedding of the repository parser module (class
RepositoryParser), of `src/backend/qa_system.py` and of
`src/backend/main.py`.  -/

namespace ICRQE

/-- Embedded Python AST node as seen by `_parse_python_file`: only class and
function definitions matter to the extractor.  The field `src` models the
output of `ast.unparse(node)` (the `code` column), `seg` models
`ast.get_source_segment(code, node)` (may be `None`), `doc` models
`ast.get_docstring(node) or ""`, and `body` models the child definition
nodes reached by `ast.iter_child_nodes`.  -/
inductive PyNode : Type
  | cls (name : String) (lineno : Nat) (end_lineno : Option Nat)
      (doc : String) (src : String) (seg : Option String) (body : List PyNode)
  | fn (name : String) (lineno : Nat) (end_lineno : Option Nat)
      (doc : String) (src : String) (seg : Option String) (body : List PyNode)

/-- Child definition nodes of a node (`ast.iter_child_nodes`). -/
def PyNode.body : PyNode → List PyNode
  | .cls _ _ _ _ _ _ b => b
  | .fn _ _ _ _ _ _ b => b

/-- Whether the node is a `ClassDef`. -/
def PyNode.isCls : PyNode → Bool
  | .cls _ _ _ _ _ _ _ => true
  | .fn _ _ _ _ _ _ _ => false

/-- Declared name of the node. -/
def PyNode.name : PyNode → String
  | .cls n _ _ _ _ _ _ => n
  | .fn n _ _ _ _ _ _ => n

mutual

/-- Size of one node, for termination of the breadth-first walk. -/
def sizeN : PyNode → Nat
  | .cls _ _ _ _ _ _ b => 1 + sizeL b
  | .fn _ _ _ _ _ _ b => 1 + sizeL b

/-- Total size of a list of nodes. -/
def sizeL : List PyNode → Nat
  | [] => 0
  | n :: t => sizeN n + sizeL t

end

/-- Fuel-indexed worker for the breadth-first traversal: pops the front
node, yields it and pushes its children at the back of the queue.  The fuel
only forces termination; it is always sufficient when the walk starts with
the total size of the queue (see `walk_cons`).  -/
def walkF : Nat → List PyNode → List PyNode
  | 0, _ => []
  | _ + 1, [] => []
  | fuel + 1, n :: rest => n :: walkF fuel (rest ++ n.body)

/-- Breadth-first traversal order of `ast.walk` started from a queue of
nodes (the module body), the `Module` node itself excluded since the
extractor matches no behaviour on it.  -/
def walk (q : List PyNode) : List PyNode := walkF (sizeL q) q

/-- One row of `code_data` appended by `_parse_python_file`, field order as
in the source dict.  -/
structure Artifact where
  type : String
  name : String
  file_path : String
  parent : Option String
  start_line : Nat
  end_line : Option Nat
  docstring : String
  code : String
deriving DecidableEq, Repr

/-- One row of `embedding_data` appended by `_parse_python_file` (the row
shape of the persisted parquet batch), field order as in the source dict.  -/
structure EmbRecord where
  id : String
  file_path : String
  start_line : Nat
  embedding : List Int
  type : String
  name : String
  parent : Option String
  end_line : Option Nat
  docstring : String
  code : String
deriving DecidableEq, Repr

/-- Model of `_generate_embedding`: the zero vector of dimension 384 when the
snippet is `None` or empty (Python falsiness), otherwise the external
embedding capability applied to the snippet.  -/
def generateEmbedding (encode : String → List Int) : Option String → List Int
  | none => List.replicate 384 0
  | some s => if s = "" then List.replicate 384 0 else encode s

/-- One input file: `full` models `str(file_path)`, `base` models
`file_path.name`, and `parse` models the outcome of reading and
`ast.parse`-ing the file (the module body on success, the exception message
on failure).  -/
structure FileInput where
  full : String
  base : String
  parse : Except String (List PyNode)

/-- Processing of one walked node by the loop body of `_parse_python_file`.
The accumulator carries `(class_stack, code_data, embedding_data)`.
A `ClassDef` pushes its name on the stack (never popped, as in the source)
and appends a class row to both lists; a `FunctionDef` reads the top of the
stack as `parent` and appends a method/function row to both lists, with
`parent` hard-coded to `None` in the embedding row as in the source.  -/
def stepNode (encode : String → List Int) (fp : FileInput)
    (acc : List String × List Artifact × List EmbRecord) (n : PyNode) :
    List String × List Artifact × List EmbRecord :=
  match n with
  | .cls name line endl doc src seg _ =>
      (acc.1 ++ [name],
       acc.2.1 ++ [⟨"class", name, fp.full, none, line, endl, doc, src⟩],
       acc.2.2 ++ [⟨name, fp.full, line, generateEmbedding encode seg,
                    "class", name, none, endl, doc, src⟩])
  | .fn name line endl doc src seg _ =>
      (acc.1,
       acc.2.1 ++ [⟨if acc.1.getLast?.isSome then "method" else "function", name,
                    fp.full, acc.1.getLast?, line, endl, doc, src⟩],
       acc.2.2 ++ [⟨name ++ "_" ++ fp.base, fp.full, line,
                    generateEmbedding encode seg,
                    if acc.1.getLast?.isSome then "method" else "function", name,
                    none, endl, doc, src⟩])

/-- Model of `RepositoryParser._parse_python_file`: on a parse failure the
lists are returned untouched and the error is logged with the file path and
reason; on success every node of the breadth-first walk is processed in
order, starting from an empty class stack.  -/
def parsePythonFile (encode : String → List Int) (fp : FileInput)
    (code_data : List Artifact) (embedding_data : List EmbRecord)
    (log : List String) : List Artifact × List EmbRecord × List String :=
  match fp.parse with
  | .error e =>
      (code_data, embedding_data,
       log ++ ["Error parsing Python file " ++ fp.full ++ ": " ++ e])
  | .ok body =>
      let r := (walk body).foldl (stepNode encode fp) ([], code_data, embedding_data)
      (r.2.1, r.2.2, log)

/-- Model of the file loop of `RepositoryParser.extract_code_structure`:
both lists and the log accumulate across all files of the run.  -/
def extractAll (encode : String → List Int) (files : List FileInput) :
    List Artifact × List EmbRecord × List String :=
  files.foldl (fun acc fp => parsePythonFile encode fp acc.1 acc.2.1 acc.2.2)
    ([], [], [])

/-- Model of `df_embeddings.to_parquet`: no file is written when the batch
is empty, otherwise the rows are persisted unchanged.  -/
def writeParquet (l : List EmbRecord) : Option (List EmbRecord) :=
  if l.isEmpty then none else some l

/-- Model of `pd.read_parquet` on the persisted batch. -/
def readParquet (o : Option (List EmbRecord)) : List EmbRecord :=
  o.getD []

/-- Return value of `extract_code_structure`. -/
structure ExtractResult where
  metadata_count : Nat
  embeddings_count : Nat
deriving DecidableEq, Repr

/-- Model of `RepositoryParser.extract_code_structure`: runs the per-file
extraction over every file and returns the two counts.  -/
def extractCodeStructure (encode : String → List Int)
    (files : List FileInput) : ExtractResult :=
  let r := extractAll encode files
  ⟨r.1.length, r.2.1.length⟩

/-- Columns of the `code_metadata` table created by
`RepositoryParser._init_db`.  -/
def codeMetadataColumns : List String :=
  ["id", "type", "name", "file_path", "parent", "start_line", "end_line"]

/-- Columns named by the INSERT statement of
`RepositoryParser.insert_metadata`.  -/
def insertTargetColumns : List String :=
  ["file_path", "language", "type", "name", "parent", "start_line", "end_line"]

/-- Model of `RepositoryParser.insert_metadata`: a plain SQL INSERT (no
upsert, no key) of the metadata rows into `code_metadata`.  The INSERT
names a `language` column that the table created by `_init_db` does not
have, so with any rows to insert the database binder rejects the statement;
with no rows nothing is executed.  -/
def insertMetadata (table : List Artifact) (metadata : List Artifact) :
    Except String (List Artifact) :=
  if metadata.isEmpty then .ok table
  else if insertTargetColumns.all (fun c => codeMetadataColumns.contains c) then
    .ok (table ++ metadata)
  else .error "Binder Error: table code_metadata does not have a column named language"

/-- Metadata stored with each vector-store entry by `upsert_batch_async`:
the parquet row minus the `code`, `docstring` and `parent` columns.  -/
structure StoredMeta where
  id : String
  file_path : String
  start_line : Nat
  embedding : List Int
  type : String
  name : String
  end_line : Option Nat
deriving DecidableEq, Repr

/-- Projection of a parquet row to the vector-store metadata
(`batch.drop(columns=["code", "docstring", "parent"])`).  -/
def toStoredMeta (r : EmbRecord) : StoredMeta :=
  ⟨r.id, r.file_path, r.start_line, r.embedding, r.type, r.name, r.end_line⟩

/-- Document text built per row by `upsert_batch_async`: the code, then the
docstring when non-empty, then the parent when non-empty.  -/
def docText (r : EmbRecord) : String :=
  let d := r.code ++ "\n"
  let d := if r.docstring ≠ "" then d ++ "\nDocstring:\n" ++ r.docstring ++ "\n" else d
  if (r.parent.getD "") ≠ "" then d ++ "\nParent Class/Module: " ++ (r.parent.getD "") ++ "\n" else d

/-- One entry of the vector store: stored metadata plus document text. -/
structure VEntry where
  meta : StoredMeta
  document : String
deriving DecidableEq, Repr

/-- The vector store observed as a map from id to entry. -/
def VectorStore : Type := String → Option VEntry

/-- One keyed upsert into the vector store (`collection.upsert` for a
single id): last write wins for that id, all other ids untouched.  -/
def upsertOne (s : VectorStore) (id : String) (e : VEntry) : VectorStore :=
  fun x => if x = id then some e else s x

/-- Batched upsert of a list of (id, entry) pairs, applied in order. -/
def upsertPairs (s : VectorStore) (l : List (String × VEntry)) : VectorStore :=
  l.foldl (fun g p => upsertOne g p.1 p.2) s

/-- Upsert of parquet rows as performed by `upsert_batch_async`: each row is
keyed by its `id` and contributes its projected metadata and document
text.  -/
def upsertRecords (s : VectorStore) (rows : List EmbRecord) : VectorStore :=
  upsertPairs s (rows.map fun r => (r.id, ⟨toStoredMeta r, docText r⟩))

/-- Model of `process_embeddings_async`: error out when the parquet batch is
empty; keep only rows of changed files when a non-empty changed-file list is
given (Python truthiness: `None` and the empty list disable the filter);
upsert the remaining rows into the vector store in order (the source cuts
them into batches of 100 dispatched in creation order, which applies the
same keyed writes).  -/
def processEmbeddings (s : VectorStore) (rows : List EmbRecord)
    (changedFiles : Option (List String)) : Except String VectorStore :=
  if rows.isEmpty then .error "No embeddings found."
  else
    let rows2 := match changedFiles with
      | some cf => if cf.isEmpty then rows else rows.filter (fun r => cf.contains r.file_path)
      | none => rows
    .ok (upsertRecords s rows2)

/-- One row of the `code_metadata` table as selected by
`QAProcessor._fetch_metadata_fallback`.  -/
structure MetaRow where
  file_path : String
  name : String
  type : String
  parent : Option String
  start_line : Int
  end_line : Int
deriving DecidableEq, Repr

/-- Whether `p` occurs as a contiguous run inside `s`. -/
def hasSubRun (p : List Char) : List Char → Bool
  | [] => p.isEmpty
  | c :: t => p.isPrefixOf (c :: t) || hasSubRun p t

/-- Model of SQL `ILIKE` with the pattern wrapped in percent wildcards:
case-insensitive substring containment.  -/
def ilikeMatch (pat s : String) : Bool :=
  hasSubRun pat.toLower.data s.toLower.data

/-- Apostrophe character used by the fallback rendering. -/
def sq : String := (Char.ofNat 39).toString

/-- Model of `QAProcessor._fetch_metadata_fallback`: select at most 5 rows
whose name, type or file path contains the question case-insensitively, and
render them one per line; `None` when nothing matches.  -/
def fetchMetadataFallback (table : List MetaRow) (question : String) :
    Option String :=
  let results := (table.filter fun r =>
    ilikeMatch question r.name || ilikeMatch question r.type ||
      ilikeMatch question r.file_path).take 5
  if results.isEmpty then none
  else some (String.intercalate "\n" (results.map fun r =>
    r.type ++ " " ++ sq ++ r.name ++ sq ++ " in " ++ r.file_path ++
      " (Lines " ++ toString r.start_line ++ "-" ++ toString r.end_line ++ ")"))

/-- Result of `collection.query` as consumed by `answer_question`: a list of
per-query metadata lists (entries may be `None`) and a list of per-query
document lists.  -/
structure QueryResult where
  metadatas : List (List (Option StoredMeta))
  documents : List (List String)
deriving DecidableEq, Repr

/-- Flattening of the metadata lists, keeping truthy entries only
(`[meta for sublist in metadata_list for meta in sublist if meta]`).  -/
def flattenMeta (q : QueryResult) : List StoredMeta :=
  (q.metadatas.map (fun l => l.filterMap id)).flatten

/-- Flattening of the document lists, keeping truthy (non-empty) documents
only.  -/
def flattenDocs (q : QueryResult) : List String :=
  (q.documents.map (fun l => l.filter (fun d => d ≠ ""))).flatten

/-- One rendered context snippet of `answer_question`. -/
def renderSnippet (m : StoredMeta) (doc : String) : String :=
  "File: " ++ m.file_path ++ "\n" ++ "Name: " ++ m.name ++ "\n" ++
    "Type: " ++ m.type ++ "\n" ++ "Code:\n" ++ doc ++ "\n"

/-- Context string built by `answer_question`: the joined snippets when both
flattened lists are non-empty, otherwise the literal fallback string.  -/
def contextOf (q : QueryResult) : String :=
  let ms := flattenMeta q
  let ds := flattenDocs q
  if ms.isEmpty || ds.isEmpty then "No relevant context found."
  else String.intercalate "\n\n" ((ms.zip ds).map fun p => renderSnippet p.1 p.2)

/-- Fixed system message sent to the completion capability. -/
def systemPrompt : String :=
  "You are an AI assistant that answers questions using code from a repository. " ++
    "Ensure your responses reference specific classes, functions, or files when applicable."

/-- User message sent to the completion capability. -/
def userPrompt (ctx question : String) : String :=
  "Repository Context:\n" ++ ctx ++ "\n\n" ++
    "Answer the following question based on the repository content above:\n" ++
    question ++ "\n\n" ++
    "If you do not find an exact match, try to infer based on related code structures."

/-- Observable outcome of one `answer_question` call. -/
structure QAOutcome where
  context : String
  fallbackInvoked : Bool
  completionInvoked : Bool
  answer : String

/-- Model of `QAProcessor.answer_question`.  The processor holds a path to
the metadata store (`self.db_path`), modelled by the `table` argument, but
the method body never consults it: it builds the context from the semantic
query result alone and always calls the completion capability.  -/
def answerQuestion (complete : String → String → String)
    (table : List MetaRow) (question : String) (results : QueryResult) :
    QAOutcome :=
  let _ := table
  let ctx := contextOf results
  { context := ctx
    fallbackInvoked := false
    completionInvoked := true
    answer := complete systemPrompt (userPrompt ctx question) }

/-- The id actually assigned by `_parse_python_file`: the bare class name
for classes, and the function name joined to the file basename by an
underscore for functions and methods.  -/
def idOf (isCls : Bool) (name base : String) : String :=
  if isCls then name else name ++ "_" ++ base

/-- Signature of one walked node: kind, declared name and file basename. -/
def idOfSig (s : Bool × String × String) : String :=
  idOf s.1 s.2.1 s.2.2

/-- Signatures of all nodes processed in one run, in processing order:
failing files contribute nothing, each parsed file contributes its
breadth-first walk.  -/
def runSigs (files : List FileInput) : List (Bool × String × String) :=
  (files.map (fun fp => match fp.parse with
    | .error _ => []
    | .ok body => (walk body).map (fun n => (n.isCls, n.name, fp.base)))).flatten

/-- Fieldwise relation between one `code_data` artifact and the
`embedding_data` row appended for the same node: every field of the data
model agrees except that the row stores `parent` as `None`, which coincides
with the artifact `parent` whenever the artifact is not a method.  -/
def FieldAgree (a : Artifact) (r : EmbRecord) : Prop :=
  r.type = a.type ∧ r.name = a.name ∧ r.file_path = a.file_path ∧
    r.start_line = a.start_line ∧ r.end_line = a.end_line ∧
    r.docstring = a.docstring ∧ r.code = a.code ∧ r.parent = none ∧
    (a.type ≠ "method" → r.parent = a.parent)

/-- Trivial embedding capability used by concrete evaluations. -/
def enc0 : String → List Int := fun _ => []

/-- Trivial completion capability used by concrete evaluations. -/
def complete0 : String → String → String := fun _ _ => "ok"

/-- Method `foo` of the example file `m.py` of the specification. -/
def fooNode : PyNode :=
  .fn "foo" 2 (some 2) "" "def foo(self):\n    pass" (some "def foo(self): pass") []

/-- Class `A` of the example file `m.py`, containing the method `foo`. -/
def classANode : PyNode :=
  .cls "A" 1 (some 2) "" "class A:\n\n    def foo(self):\n        pass"
    (some "class A: def foo(self): pass") [fooNode]

/-- Module-level function `bar` of the example file `m.py`. -/
def barNode : PyNode :=
  .fn "bar" 3 (some 3) "" "def bar():\n    pass" (some "def bar(): pass") []

/-- The example file `m.py` of the specification: `class A` with method
`foo`, followed by a module-level `def bar`.  -/
def mFile : FileInput := ⟨"m.py", "m.py", .ok [classANode, barNode]⟩

/-- A file holding only `class A` with its method `foo`. -/
def classOnlyFile : FileInput := ⟨"m.py", "m.py", .ok [classANode]⟩

/-- File `m.py` holding one function `bar` whose body returns 1. -/
def fileV1 : FileInput :=
  ⟨"m.py", "m.py",
   .ok [.fn "bar" 1 (some 2) "" "def bar():\n    return 1"
          (some "def bar():\n    return 1") []]⟩

/-- The same file after an edit: the body of `bar` now returns 2. -/
def fileV2 : FileInput :=
  ⟨"m.py", "m.py",
   .ok [.fn "bar" 1 (some 2) "" "def bar():\n    return 2"
          (some "def bar():\n    return 2") []]⟩

/-- File `a.py` declaring a class named `A`. -/
def fileClassA : FileInput :=
  ⟨"a.py", "a.py", .ok [.cls "A" 1 (some 1) "" "class A:\n    pass"
    (some "class A: pass") []]⟩

/-- File `b.py` also declaring a class named `A`. -/
def fileClassB : FileInput :=
  ⟨"b.py", "b.py", .ok [.cls "A" 1 (some 1) "" "class A:\n    pass"
    (some "class A: pass") []]⟩

/-- A file whose source fails to parse. -/
def badFile : FileInput := ⟨"bad.py", "bad.py", .error "invalid syntax"⟩

/-- Parquet row of class `A` extracted from file `a.py`. -/
def recA : EmbRecord :=
  ⟨"A", "a.py", 1, [], "class", "A", none, some 1, "", "class A:\n    pass"⟩

/-- Vector-store entry for id `A` previously written from file `b.py`. -/
def entryB : VEntry :=
  ⟨⟨"A", "b.py", 1, [], "class", "A", some 1⟩, "class A:\n    pass\n"⟩

/-- Vector-store entry produced by upserting the row `recA`. -/
def entryA : VEntry := ⟨toStoredMeta recA, docText recA⟩

/-- A vector store whose only entry, keyed `A`, belongs to file `b.py`. -/
def store0 : VectorStore := fun x => if x = "A" then some entryB else none

/-- One metadata row used by concrete evaluations. -/
def artifact0 : Artifact :=
  ⟨"function", "bar", "m.py", none, 1, some 2, "", "def bar():\n    pass"⟩

/-- A query result carrying zero retrieved entries. -/
def emptyQR : QueryResult := ⟨[[]], [[]]⟩

theorem sizeL_append (l₁ l₂ : List PyNode) :
    sizeL (l₁ ++ l₂) = sizeL l₁ + sizeL l₂ := by
  induction l₁ with
  | nil => simp [sizeL]
  | cons n t ih => simp [sizeL, ih]; omega

theorem sizeN_eq (n : PyNode) : sizeN n = 1 + sizeL n.body := by
  cases n <;> rfl

theorem walkF_congr : ∀ (f g : Nat) (q : List PyNode),
    sizeL q ≤ f → sizeL q ≤ g → walkF f q = walkF g q := by
  intro f
  induction f with
  | zero =>
    intro g q hf hg
    cases q with
    | nil => cases g <;> rfl
    | cons n rest =>
      exfalso
      have h1 := sizeN_eq n
      simp [sizeL] at hf
      omega
  | succ f ih =>
    intro g q hf hg
    cases q with
    | nil => cases g <;> rfl
    | cons n rest =>
      cases g with
      | zero =>
        exfalso
        have h1 := sizeN_eq n
        simp [sizeL] at hg
        omega
      | succ g =>
        show n :: walkF f (rest ++ n.body) = n :: walkF g (rest ++ n.body)
        congr 1
        have h1 := sizeN_eq n
        have h2 : sizeL (rest ++ n.body) = sizeL rest + sizeL n.body :=
          sizeL_append rest n.body
        have h3 : sizeL (n :: rest) = sizeN n + sizeL rest := rfl
        apply ih <;> omega

/-- Validation of the fuel-based walk: it satisfies the breadth-first
recurrence of `ast.walk` (pop the front node, yield it, enqueue its
children at the back).  -/
theorem walk_cons (n : PyNode) (rest : List PyNode) :
    walk (n :: rest) = n :: walk (rest ++ n.body) := by
  show walkF (sizeL (n :: rest)) (n :: rest) =
    n :: walkF (sizeL (rest ++ n.body)) (rest ++ n.body)
  have h1 : sizeL (n :: rest) = (sizeL n.body + sizeL rest) + 1 := by
    have h2 := sizeN_eq n
    have h3 : sizeL (n :: rest) = sizeN n + sizeL rest := rfl
    omega
  rw [h1]
  show n :: walkF (sizeL n.body + sizeL rest) (rest ++ n.body) = _
  congr 1
  apply walkF_congr
  · rw [sizeL_append]; omega
  · omega

theorem foldl_step_append (encode : String → List Int) (fp : FileInput)
    (ns : List PyNode) :
    ∀ (st : List String) (cd : List Artifact) (emb : List EmbRecord),
      ns.foldl (stepNode encode fp) (st, cd, emb) =
        ((ns.foldl (stepNode encode fp) (st, [], [])).1,
         cd ++ (ns.foldl (stepNode encode fp) (st, [], [])).2.1,
         emb ++ (ns.foldl (stepNode encode fp) (st, [], [])).2.2) := by
  induction ns with
  | nil => intro st cd emb; simp
  | cons n t ih =>
    intro st cd emb
    cases n with
    | cls name line endl doc src seg b =>
      simp only [List.foldl_cons, stepNode, List.nil_append]
      rw [ih (st ++ [name]) (cd ++ [_]) (emb ++ [_]),
        ih (st ++ [name]) [_] [_]]
      simp [List.append_assoc]
    | fn name line endl doc src seg b =>
      simp only [List.foldl_cons, stepNode, List.nil_append]
      rw [ih st (cd ++ [_]) (emb ++ [_]), ih st [_] [_]]
      simp [List.append_assoc]

theorem foldl_step_ids (encode : String → List Int) (fp : FileInput)
    (ns : List PyNode) :
    ∀ st, ((ns.foldl (stepNode encode fp) (st, [], [])).2.2).map (fun r => r.id) =
      ns.map (fun n => idOf n.isCls n.name fp.base) := by
  induction ns with
  | nil => intro st; rfl
  | cons n t ih =>
    intro st
    cases n with
    | cls name line endl doc src seg b =>
      simp only [List.foldl_cons, stepNode, List.nil_append]
      rw [foldl_step_append encode fp t (st ++ [name]) [_] [_]]
      simp [ih, idOf, PyNode.isCls, PyNode.name]
    | fn name line endl doc src seg b =>
      simp only [List.foldl_cons, stepNode, List.nil_append]
      rw [foldl_step_append encode fp t st [_] [_]]
      simp [ih, idOf, PyNode.isCls, PyNode.name]

theorem foldl_step_agree (encode : String → List Int) (fp : FileInput)
    (ns : List PyNode) :
    ∀ st, List.Forall₂ FieldAgree
      ((ns.foldl (stepNode encode fp) (st, [], [])).2.1)
      ((ns.foldl (stepNode encode fp) (st, [], [])).2.2) := by
  induction ns with
  | nil => intro st; exact List.Forall₂.nil
  | cons n t ih =>
    intro st
    cases n with
    | cls name line endl doc src seg b =>
      simp only [List.foldl_cons, stepNode, List.nil_append]
      rw [foldl_step_append encode fp t (st ++ [name]) [_] [_]]
      refine List.rel_append ?_ (ih (st ++ [name]))
      refine List.Forall₂.cons ?_ List.Forall₂.nil
      exact ⟨rfl, rfl, rfl, rfl, rfl, rfl, rfl, rfl, fun _ => rfl⟩
    | fn name line endl doc src seg b =>
      simp only [List.foldl_cons, stepNode, List.nil_append]
      rw [foldl_step_append encode fp t st [_] [_]]
      refine List.rel_append ?_ (ih st)
      refine List.Forall₂.cons ?_ List.Forall₂.nil
      cases hp : st.getLast? with
      | none => exact ⟨rfl, rfl, rfl, rfl, rfl, rfl, rfl, rfl, fun _ => rfl⟩
      | some c => exact ⟨rfl, rfl, rfl, rfl, rfl, rfl, rfl, rfl, fun hne => absurd rfl hne⟩

theorem parsePF_split (encode : String → List Int) (fp : FileInput)
    (cd : List Artifact) (emb : List EmbRecord) (log : List String) :
    parsePythonFile encode fp cd emb log =
      (cd ++ (parsePythonFile encode fp [] [] []).1,
       emb ++ (parsePythonFile encode fp [] [] []).2.1,
       log ++ (parsePythonFile encode fp [] [] []).2.2) := by
  cases h : fp.parse with
  | error e => simp [parsePythonFile, h]
  | ok body =>
    simp only [parsePythonFile, h]
    rw [foldl_step_append encode fp (walk body) [] cd emb]
    simp

theorem foldl_files_split (encode : String → List Int) (files : List FileInput) :
    ∀ (cd : List Artifact) (emb : List EmbRecord) (log : List String),
      files.foldl (fun acc fp => parsePythonFile encode fp acc.1 acc.2.1 acc.2.2)
          (cd, emb, log) =
        (cd ++ (extractAll encode files).1,
         emb ++ (extractAll encode files).2.1,
         log ++ (extractAll encode files).2.2) := by
  induction files with
  | nil => intro cd emb log; simp [extractAll]
  | cons fp t ih =>
    intro cd emb log
    simp only [List.foldl_cons]
    rw [show (parsePythonFile encode fp (cd, emb, log).1 (cd, emb, log).2.1
        (cd, emb, log).2.2) = parsePythonFile encode fp cd emb log from rfl]
    rw [parsePF_split, ih]
    have hx : extractAll encode (fp :: t) =
        t.foldl (fun acc g => parsePythonFile encode g acc.1 acc.2.1 acc.2.2)
          (parsePythonFile encode fp [] [] []) := rfl
    rw [hx]
    rw [show (parsePythonFile encode fp [] [] []) =
      ((parsePythonFile encode fp [] [] []).1,
       (parsePythonFile encode fp [] [] []).2.1,
       (parsePythonFile encode fp [] [] []).2.2) from rfl]
    rw [ih]
    simp [List.append_assoc]

theorem extractAll_cons (encode : String → List Int) (fp : FileInput)
    (files : List FileInput) :
    extractAll encode (fp :: files) =
      ((parsePythonFile encode fp [] [] []).1 ++ (extractAll encode files).1,
       (parsePythonFile encode fp [] [] []).2.1 ++ (extractAll encode files).2.1,
       (parsePythonFile encode fp [] [] []).2.2 ++ (extractAll encode files).2.2) := by
  have hx : extractAll encode (fp :: files) =
      files.foldl (fun acc g => parsePythonFile encode g acc.1 acc.2.1 acc.2.2)
        (parsePythonFile encode fp [] [] []) := rfl
  rw [hx]
  rw [show (parsePythonFile encode fp [] [] []) =
    ((parsePythonFile encode fp [] [] []).1,
     (parsePythonFile encode fp [] [] []).2.1,
     (parsePythonFile encode fp [] [] []).2.2) from rfl]
  rw [foldl_files_split]

theorem extract_ids_eq (encode : String → List Int) (files : List FileInput) :
    (extractAll encode files).2.1.map (fun r => r.id) =
      (runSigs files).map idOfSig := by
  induction files with
  | nil => rfl
  | cons fp t ih =>
    rw [extractAll_cons]
    simp only [List.map_append, ih]
    have hr : runSigs (fp :: t) = (match fp.parse with
        | .error _ => []
        | .ok body => (walk body).map (fun n => (n.isCls, n.name, fp.base)))
        ++ runSigs t := by
      simp [runSigs]
    rw [hr, List.map_append]
    congr 1
    cases h : fp.parse with
    | error e => simp [parsePythonFile, h]
    | ok body =>
      simp only [parsePythonFile, h]
      rw [foldl_step_ids encode fp (walk body) []]
      simp [List.map_map, idOfSig]

theorem extract_agree (encode : String → List Int) (files : List FileInput) :
    List.Forall₂ FieldAgree (extractAll encode files).1
      (extractAll encode files).2.1 := by
  induction files with
  | nil => exact List.Forall₂.nil
  | cons fp t ih =>
    rw [extractAll_cons]
    refine List.rel_append ?_ ih
    cases h : fp.parse with
    | error e =>
      simp [parsePythonFile, h]
    | ok body =>
      simp only [parsePythonFile, h]
      exact foldl_step_agree encode fp (walk body) []

theorem extract_log_mem (encode : String → List Int) (files : List FileInput)
    (fp : FileInput) (e : String) (hmem : fp ∈ files)
    (herr : fp.parse = .error e) :
    ("Error parsing Python file " ++ fp.full ++ ": " ++ e) ∈
      (extractAll encode files).2.2 := by
  induction files with
  | nil => cases hmem
  | cons g t ih =>
    rw [extractAll_cons]
    rcases List.mem_cons.mp hmem with h | h
    · subst h
      simp [parsePythonFile, herr]
    · exact List.mem_append_right _ (ih h)

theorem extract_filter_ok (encode : String → List Int) (files : List FileInput) :
    (extractAll encode files).1 =
      (extractAll encode (files.filter (fun f => f.parse.isOk))).1 ∧
      (extractAll encode files).2.1 =
        (extractAll encode (files.filter (fun f => f.parse.isOk))).2.1 := by
  induction files with
  | nil => exact ⟨rfl, rfl⟩
  | cons fp t ih =>
    cases h : fp.parse with
    | error e =>
      have hok : fp.parse.isOk = false := by rw [h]; rfl
      have hf : (fp :: t).filter (fun f => f.parse.isOk) =
          t.filter (fun f => f.parse.isOk) := by
        simp [List.filter_cons, hok]
      rw [hf, extractAll_cons]
      simp only [parsePythonFile, h, List.nil_append]
      exact ih
    | ok body =>
      have hok : fp.parse.isOk = true := by rw [h]; rfl
      have hf : (fp :: t).filter (fun f => f.parse.isOk) =
          fp :: t.filter (fun f => f.parse.isOk) := by
        simp [List.filter_cons, hok]
      rw [hf, extractAll_cons, extractAll_cons]
      exact ⟨by rw [ih.1], by rw [ih.2]⟩

theorem findOpt_append {α : Type} (p : α → Bool) (l₁ l₂ : List α) :
    (l₁ ++ l₂).find? p = ((l₁.find? p).orElse (fun _ => l₂.find? p)) := by
  induction l₁ with
  | nil => rfl
  | cons a t ih =>
    cases h : p a with
    | true => simp [List.find?, h]
    | false => simp [List.find?, h, ih]

theorem upsertPairs_point (l : List (String × VEntry)) :
    ∀ (s : VectorStore) (x : String),
      upsertPairs s l x = (match l.reverse.find? (fun p => p.1 == x) with
        | some p => some p.2
        | none => s x) := by
  induction l with
  | nil => intro s x; rfl
  | cons q t ih =>
    intro s x
    have h0 : upsertPairs s (q :: t) x = upsertPairs (upsertOne s q.1 q.2) t x := rfl
    rw [h0, ih, List.reverse_cons, findOpt_append]
    cases h : t.reverse.find? (fun p => p.1 == x) with
    | some p => simp [Option.orElse]
    | none =>
      simp only [Option.orElse]
      by_cases hq : q.1 = x
      · simp [List.find?, hq, upsertOne]
      · have hbx : (q.1 == x) = false := by simp [hq]
        have hxq : ¬ x = q.1 := fun hx => hq hx.symm
        simp [List.find?, hbx, upsertOne, hxq]

theorem upsertPairs_idem (s : VectorStore) (l : List (String × VEntry)) :
    upsertPairs (upsertPairs s l) l = upsertPairs s l := by
  funext x
  rw [upsertPairs_point, upsertPairs_point]
  cases h : l.reverse.find? (fun p => p.1 == x) <;> simp

theorem upsertPairs_not_mem (l : List (String × VEntry)) :
    ∀ (s : VectorStore) (x : String), x ∉ l.map Prod.fst →
      upsertPairs s l x = s x := by
  induction l with
  | nil => intro s x _; rfl
  | cons q t ih =>
    intro s x h
    rw [List.map_cons, List.mem_cons] at h
    push_neg at h
    have h0 : upsertPairs s (q :: t) x = upsertPairs (upsertOne s q.1 q.2) t x := rfl
    rw [h0, ih _ _ h.2]
    simp [upsertOne, fun hx => h.1 hx]

theorem upsertRecords_idem (s : VectorStore) (rows : List EmbRecord) :
    upsertRecords (upsertRecords s rows) rows = upsertRecords s rows :=
  upsertPairs_idem s _

theorem upsertRecords_not_mem (s : VectorStore) (rows : List EmbRecord)
    (x : String) (h : x ∉ rows.map (fun r => r.id)) :
    upsertRecords s rows x = s x := by
  apply upsertPairs_not_mem
  simpa [List.map_map, Function.comp] using h

theorem underscore_split_inj : ∀ (n₁ : List Char) {b₁ n₂ b₂ : List Char},
    '_' ∉ b₁ → '_' ∉ b₂ → n₁ ++ '_' :: b₁ = n₂ ++ '_' :: b₂ →
      n₁ = n₂ ∧ b₁ = b₂ := by
  intro n₁
  induction n₁ with
  | nil =>
    intro b₁ n₂ b₂ h1 h2 heq
    cases n₂ with
    | nil =>
      simp only [List.nil_append, List.cons.injEq] at heq
      exact ⟨rfl, heq.2⟩
    | cons c t =>
      simp only [List.nil_append, List.cons_append, List.cons.injEq] at heq
      exact absurd (heq.2 ▸ List.mem_append_right t (List.mem_cons_self _ _)) h1
  | cons c t ih =>
    intro b₁ n₂ b₂ h1 h2 heq
    cases n₂ with
    | nil =>
      simp only [List.nil_append, List.cons_append, List.cons.injEq] at heq
      exact absurd (heq.2 ▸ List.mem_append_right t (List.mem_cons_self _ _)) h2
    | cons d u =>
      simp only [List.cons_append, List.cons.injEq] at heq
      obtain ⟨ha, hb⟩ := ih h1 h2 heq.2
      exact ⟨by rw [heq.1, ha], hb⟩

theorem fnId_inj {n₁ b₁ n₂ b₂ : String} (h1 : '_' ∉ b₁.data)
    (h2 : '_' ∉ b₂.data) (heq : n₁ ++ "_" ++ b₁ = n₂ ++ "_" ++ b₂) :
    n₁ = n₂ ∧ b₁ = b₂ := by
  have hu : ("_" : String).data = ['_'] := rfl
  have hd : n₁.data ++ '_' :: b₁.data = n₂.data ++ '_' :: b₂.data := by
    have h := congrArg String.data heq
    simpa [String.data_append, hu] using h
  obtain ⟨ha, hb⟩ := underscore_split_inj _ h1 h2 hd
  exact ⟨String.ext ha, String.ext hb⟩

theorem fnId_has_dot {n b : String} (h : '.' ∈ b.data) :
    '.' ∈ (n ++ "_" ++ b).data := by
  have hu : ("_" : String).data = ['_'] := rfl
  simp [String.data_append, hu]
  exact Or.inr h

/-- Claim C1, counterexample: the id is NOT a function of a content hash.
The file `m.py` holding `def bar` is extracted twice, once with the body
`return 1` and once after an edit to `return 2`: the code text of the
artifact changes but the assigned id is `bar_m.py` in both runs, while the
claim requires the id to change when the content changes.  -/
theorem C1_counterexample :
    (extractAll enc0 [fileV1]).2.1.map (fun r => r.id) =
        (extractAll enc0 [fileV2]).2.1.map (fun r => r.id) ∧
      (extractAll enc0 [fileV1]).2.1.map (fun r => r.code) ≠
        (extractAll enc0 [fileV2]).2.1.map (fun r => r.code) := by
  exact ⟨rfl, by decide⟩

/-- Claim C1, amended: the assigned id is a pure deterministic function of
the artifact kind, the declared name and the file basename alone (the bare
name for classes, `name_basename` for functions and methods): the ids of a
run are exactly the mapped signatures of the walked nodes, independent of
the embedding capability, the code text, the docstring, the full path and
the start line, so the id is stable across re-runs on unchanged content but
does NOT change when only the code text changes.  -/
theorem C1_amended_ids (encode : String → List Int) (files : List FileInput) :
    (extractAll encode files).2.1.map (fun r => r.id) =
      (runSigs files).map idOfSig :=
  extract_ids_eq encode files

/-- Claim C2, counterexample: two classes with the same name in different
files receive the SAME id.  A run over `a.py` and `b.py`, each declaring a
class `A`, emits two embedding records that both carry id `A`, so the ids
of one run are not pairwise distinct.  -/
theorem C2_counterexample :
    ¬ ((extractAll enc0 [fileClassA, fileClassB]).2.1.map
        (fun r => r.id)).Pairwise (fun x y => x ≠ y) := by
  decide

/-- Claim C2, amended: the ids of one run are pairwise distinct provided no
two classes of the run share a name, no two functions or methods of the run
share both name and file basename, class names contain no dot, and file
basenames contain a dot and no underscore.  Without these conditions ids
collide, as the counterexample shows.  -/
theorem C2_amended_distinct (encode : String → List Int)
    (files : List FileInput)
    (hcls : ∀ s ∈ runSigs files, s.1 = true → '.' ∉ s.2.1.data)
    (hfn : ∀ s ∈ runSigs files, s.1 = false →
      '.' ∈ s.2.2.data ∧ '_' ∉ s.2.2.data)
    (hpw : (runSigs files).Pairwise (fun a b =>
      (a.1 = true → b.1 = true → a.2.1 ≠ b.2.1) ∧
      (a.1 = false → b.1 = false → ¬ (a.2.1 = b.2.1 ∧ a.2.2 = b.2.2)))) :
    ((extractAll encode files).2.1.map (fun r => r.id)).Pairwise
      (fun x y => x ≠ y) := by
  rw [extract_ids_eq, List.pairwise_map]
  refine List.Pairwise.imp_of_mem ?_ hpw
  intro a b ha hb hab
  rcases Bool.eq_false_or_eq_true a.1 with ha1 | ha1 <;>
    rcases Bool.eq_false_or_eq_true b.1 with hb1 | hb1
  · simp only [idOfSig, idOf, ha1, hb1, if_true]
    exact hab.1 ha1 hb1
  · simp [idOfSig, idOf, ha1, hb1]
    intro heq
    have hd := fnId_has_dot (n := b.2.1) (hfn b hb hb1).1
    rw [← heq] at hd
    exact hcls a ha ha1 hd
  · simp [idOfSig, idOf, ha1, hb1]
    intro heq
    have hd := fnId_has_dot (n := a.2.1) (hfn a ha ha1).1
    rw [heq] at hd
    exact hcls b hb hb1 hd
  · simp [idOfSig, idOf, ha1, hb1]
    intro heq
    obtain ⟨e1, e2⟩ := fnId_inj (hfn a ha ha1).2 (hfn b hb hb1).2 heq
    exact hab.2 ha1 hb1 ⟨e1, e2⟩

/-- Claim C2, witness for the amended theorem at a concrete run: one file
`m.py` with a class `A` and a function `f` satisfies all naming hypotheses
and its ids `A` and `f_m.py` are pairwise distinct.  -/
theorem C2_witness :
    ((extractAll enc0 [⟨"m.py", "m.py",
        .ok [.cls "A" 1 (some 1) "" "class A:\n    pass" (some "class A: pass") [],
             .fn "f" 2 (some 2) "" "def f():\n    pass" (some "def f(): pass") []]⟩]).2.1.map
      (fun r => r.id)).Pairwise (fun x y => x ≠ y) :=
  C2_amended_distinct enc0 _ (by decide) (by decide) (by decide)

/-- Claim C3, evaluation at the failing input: for the file `m.py` holding
`class A` with method `foo` followed by a module-level `def bar`, the code
emits THREE artifacts but labels `bar` with kind `method` and parent `A`
(the class stack is never popped and `ast.walk` is breadth-first), where
the claim and the specification require kind `function` with parent null
for `bar`.  -/
theorem C3_code_eval :
    (extractAll enc0 [mFile]).1 =
      [⟨"class", "A", "m.py", none, 1, some 2, "",
        "class A:\n\n    def foo(self):\n        pass"⟩,
       ⟨"method", "bar", "m.py", some "A", 3, some 3, "",
        "def bar():\n    pass"⟩,
       ⟨"method", "foo", "m.py", some "A", 2, some 2, "",
        "def foo(self):\n    pass"⟩] := by
  rfl

/-- Claim C4, counterexample: a question whose semantic retrieval returns
zero results does NOT trigger the keyword fallback: `answer_question` never
calls `_fetch_metadata_fallback`, so the claimed equivalence between
fallback invocation and empty semantic retrieval fails on an empty query
result.  -/
theorem C4_counterexample :
    ¬ (((answerQuestion complete0 [] "what does foo do" emptyQR).fallbackInvoked
          = true) ↔
        (flattenMeta emptyQR = [] ∧ flattenDocs emptyQR = [])) := by
  decide

/-- Claim C4, amended: the keyword fallback search is never invoked: for
every question and every retrieval result, `answer_question` performs no
fallback query, and its outcome is entirely independent of the contents of
the structured metadata store.  -/
theorem C4_amended_no_fallback (complete : String → String → String)
    (t₁ t₂ : List MetaRow) (q : String) (res : QueryResult) :
    (answerQuestion complete t₁ q res).fallbackInvoked = false ∧
      answerQuestion complete t₁ q res = answerQuestion complete t₂ q res :=
  ⟨rfl, rfl⟩

/-- Claim C5: when retrieval yields no results from either the semantic
path or the keyword path, the context is exactly the literal string and the
completion capability is still invoked with that context, so the call
neither raises nor returns empty.  -/
theorem C5_empty_retrieval (complete : String → String → String)
    (table : List MetaRow) (q : String) (res : QueryResult)
    (hm : flattenMeta res = []) (hd : flattenDocs res = [])
    (_hk : fetchMetadataFallback table q = none) :
    (answerQuestion complete table q res).context = "No relevant context found." ∧
      (answerQuestion complete table q res).completionInvoked = true ∧
      (answerQuestion complete table q res).answer =
        complete systemPrompt (userPrompt "No relevant context found." q) := by
  have hc : contextOf res = "No relevant context found." := by
    simp [contextOf, hm, hd]
  exact ⟨by simp [answerQuestion, hc], rfl, by simp [answerQuestion, hc]⟩

/-- Claim C5, witness: the hypotheses of `C5_empty_retrieval` hold at the
concrete empty query result and empty metadata table.  -/
theorem C5_witness :
    flattenMeta emptyQR = [] ∧ flattenDocs emptyQR = [] ∧
      fetchMetadataFallback [] "what does foo do" = none ∧
      (answerQuestion complete0 [] "what does foo do" emptyQR).context =
        "No relevant context found." :=
  ⟨rfl, rfl, rfl,
   (C5_empty_retrieval complete0 [] "what does foo do" emptyQR rfl rfl rfl).1⟩

/-- Claim C6, counterexample: the metadata-store write is not an idempotent
id-keyed upsert; `insert_metadata` is a plain INSERT that names a
`language` column absent from the `code_metadata` schema, so it fails
instead of upserting.  -/
theorem C6_counterexample :
    insertMetadata [] [artifact0] =
      .error "Binder Error: table code_metadata does not have a column named language" := by
  rfl

/-- Claim C6, amended: the vector-store upsert is idempotent and
last-write-wins per id (re-upserting the same records leaves the store
unchanged), but the metadata-store write is not an upsert: with any rows to
write, `insert_metadata` fails on the schema mismatch.  -/
theorem C6_amended_upsert (s : VectorStore) (rows : List EmbRecord)
    (t md : List Artifact) (h : md ≠ []) :
    upsertRecords (upsertRecords s rows) rows = upsertRecords s rows ∧
      (insertMetadata t md).isOk = false := by
  refine ⟨upsertRecords_idem s rows, ?_⟩
  cases md with
  | nil => exact absurd rfl h
  | cons a l => rfl

/-- Claim C6, witness for the amended theorem at a concrete input. -/
theorem C6_witness :
    ([artifact0] : List Artifact) ≠ [] ∧
      (insertMetadata [] [artifact0]).isOk = false :=
  ⟨by decide, (C6_amended_upsert store0 [] [] [artifact0] (by decide)).2⟩

/-- Claim C7, counterexample: with `changedFiles = ["a.py"]`, upserting the
record of class `A` from `a.py` overwrites the store entry for id `A` that
belonged to file `b.py`, so an entry of a file outside `changedFiles` is
NOT left unchanged (ids collide across files because a class id is its bare
name).  -/
theorem C7_counterexample :
    (processEmbeddings store0 [recA] (some ["a.py"])).toOption.map
        (fun s => s "A") = some (some entryA) ∧
      entryA.meta.file_path = "a.py" ∧ store0 "A" = some entryB ∧
      entryB.meta.file_path = "b.py" ∧ entryA ≠ entryB := by
  exact ⟨rfl, rfl, rfl, rfl, by decide⟩

/-- Claim C7, amended: with a non-empty `changedFiles`, exactly the records
whose `file_path` lies in `changedFiles` are upserted; every store entry
whose id is not among the ids of those records is left unchanged (an entry
of another file that shares an id with an upserted record is overwritten);
with `changedFiles` omitted, all supplied records are processed.  -/
theorem C7_amended_frame (s : VectorStore) (rows : List EmbRecord)
    (cf : List String) (h1 : rows ≠ []) (h2 : cf ≠ []) :
    processEmbeddings s rows (some cf) =
        .ok (upsertRecords s (rows.filter (fun r => cf.contains r.file_path))) ∧
      (∀ x, x ∉ (rows.filter (fun r => cf.contains r.file_path)).map
          (fun r => r.id) →
        upsertRecords s (rows.filter (fun r => cf.contains r.file_path)) x = s x) ∧
      processEmbeddings s rows none = .ok (upsertRecords s rows) := by
  refine ⟨?_, ?_, ?_⟩
  · cases rows with
    | nil => exact absurd rfl h1
    | cons a t =>
      cases cf with
      | nil => exact absurd rfl h2
      | cons c u => rfl
  · intro x hx
    exact upsertRecords_not_mem s _ x hx
  · cases rows with
    | nil => exact absurd rfl h1
    | cons a t => rfl

/-- Claim C7, witness for the amended theorem at a concrete input. -/
theorem C7_witness :
    processEmbeddings store0 [recA] none = .ok (upsertRecords store0 [recA]) :=
  (C7_amended_frame store0 [recA] ["a.py"] (by decide) (by decide)).2.2

/-- Claim C8: a file that fails to parse is skipped entirely (the run
output equals the output over the successfully parsing files alone), the
error is logged with the file path and reason, extraction of all other
files continues, and `extract_code_structure` still returns the counts of
the successfully processed metadata and embedding records.  -/
theorem C8_partial_failure (encode : String → List Int) (files : List FileInput)
    (fp : FileInput) (e : String) (hmem : fp ∈ files)
    (herr : fp.parse = .error e) :
    ("Error parsing Python file " ++ fp.full ++ ": " ++ e) ∈
        (extractAll encode files).2.2 ∧
      (extractAll encode files).1 =
        (extractAll encode (files.filter (fun f => f.parse.isOk))).1 ∧
      (extractAll encode files).2.1 =
        (extractAll encode (files.filter (fun f => f.parse.isOk))).2.1 ∧
      extractCodeStructure encode files =
        ⟨(extractAll encode files).1.length,
         (extractAll encode files).2.1.length⟩ :=
  ⟨extract_log_mem encode files fp e hmem herr,
   (extract_filter_ok encode files).1, (extract_filter_ok encode files).2, rfl⟩

/-- Claim C8, witness: a run over a good file and a failing file logs the
failing file with its reason.  -/
theorem C8_witness :
    badFile ∈ [fileV1, badFile] ∧ badFile.parse = .error "invalid syntax" ∧
      ("Error parsing Python file " ++ badFile.full ++ ": " ++ "invalid syntax") ∈
        (extractAll enc0 [fileV1, badFile]).2.2 :=
  ⟨List.Mem.tail _ (List.Mem.head _), rfl,
   (C8_partial_failure enc0 [fileV1, badFile] badFile "invalid syntax"
     (List.Mem.tail _ (List.Mem.head _)) rfl).1⟩

/-- Claim C9, counterexample: the persisted batch row of a method does NOT
round-trip the `parent` field.  For a file holding `class A` with method
`foo`, the re-read batch rows carry parent `None` for both rows while the
extracted artifact for `foo` has parent `A`.  -/
theorem C9_counterexample :
    (readParquet (writeParquet (extractAll enc0 [classOnlyFile]).2.1)).map
        (fun r => r.parent) = [none, none] ∧
      (extractAll enc0 [classOnlyFile]).1.map (fun a => a.parent) =
        [none, some "A"] :=
  ⟨rfl, rfl⟩

/-- Claim C9, amended: the persisted batch re-reads exactly as written, and
each row agrees with its artifact on every field of the data model except
`parent`: the row stores `parent` as null unconditionally, which coincides
with the artifact value for classes and top-level functions but loses the
enclosing class of methods.  -/
theorem C9_amended_roundtrip (encode : String → List Int)
    (files : List FileInput)
    (h : (extractAll encode files).2.1 ≠ []) :
    readParquet (writeParquet (extractAll encode files).2.1) =
        (extractAll encode files).2.1 ∧
      List.Forall₂ FieldAgree (extractAll encode files).1
        (extractAll encode files).2.1 := by
  refine ⟨?_, extract_agree encode files⟩
  cases hr : (extractAll encode files).2.1 with
  | nil => exact absurd hr h
  | cons a t => rfl

/-- Claim C9, witness for the amended theorem at a concrete input. -/
theorem C9_witness :
    readParquet (writeParquet (extractAll enc0 [classOnlyFile]).2.1) =
      (extractAll enc0 [classOnlyFile]).2.1 :=
  (C9_amended_roundtrip enc0 [classOnlyFile] (by decide)).1

/-- Claim C10: every extracted class, function or method appends exactly
one record to the metadata list and one to the embedding list, so the two
counts returned by `extract_code_structure` are always equal.  -/
theorem C10_counts_equal (encode : String → List Int) (files : List FileInput) :
    (extractCodeStructure encode files).metadata_count =
      (extractCodeStructure encode files).embeddings_count :=
  (extract_agree encode files).length_eq

end ICRQE
